import Mathlib

/-!
Verification of the read-pair filtering module of TADbit
(`_pytadbit/mapping/filter.py`): a shallow embedding of the Selector
(`apply_filter`) and the Classifier (`filter_reads`), together with proofs
settling the specification's claims about them.

Modelling conventions:
* a file is a `List String` of its lines;
* Python `str` operations are re-implemented structurally over `String.data`
  (`List Char`), matching Python's code-point semantics;
* Python `dict`s are association lists; iterating a dict yields its keys;
* Python sets are lists with membership-guarded insertion;
* a run that raises an exception returns `none` (no partial result);
* Python floats in the threshold computation are modelled by exact
  rationals (`ℚ`); `int()` truncation toward zero is modelled by `pyInt`.
-/

namespace TadbitFilter

/-! ## Definitions: the shallow embedding -/

/-- Python `str.split()` with no separator: split `List Char` on runs of whitespace,
dropping empty fields.  `acc` holds the (reversed) current field. -/
def splitWsAux : List Char → List Char → List (List Char)
  | [], acc => if acc = [] then [] else [acc.reverse]
  | c :: cs, acc =>
    if c.isWhitespace then
      if acc = [] then splitWsAux cs [] else acc.reverse :: splitWsAux cs []
    else splitWsAux cs (c :: acc)

/-- The whitespace-separated fields of a line, as in Python `line.split()`. -/
def pyFields (s : String) : List String :=
  (splitWsAux s.data []).map (fun cs => String.mk cs)

/-- Digits of a decimal numeral, accumulator form. -/
def natOfDigitsAux : List Char → Nat → Option Nat
  | [], acc => some acc
  | c :: cs, acc =>
    if c.isDigit then natOfDigitsAux cs (acc * 10 + (c.toNat - ('0').toNat))
    else none

/-- A nonempty all-digit string as a `Nat`. -/
def natOfDigits : List Char → Option Nat
  | [] => none
  | c :: cs => natOfDigitsAux (c :: cs) 0

/-- Python `int(s)` on an optionally signed decimal string; `none` models the
`ValueError` raised on any other input. -/
def pyToInt (s : String) : Option Int :=
  match s.data with
  | '-' :: rest => (natOfDigits rest).map (fun n => -(n : Int))
  | '+' :: rest => (natOfDigits rest).map (fun n => (n : Int))
  | l => (natOfDigits l).map (fun n => (n : Int))

/-- The leading field `line.split('\t', 1)[0]`: everything before the first tab (the whole line
if it has no tab). -/
def readId (line : String) : String :=
  String.mk (line.data.takeWhile (fun c => c ≠ '\t'))

/-- Lexicographic comparison of code-point lists, as Python compares `str`. -/
def lexLe : List Char → List Char → Bool
  | [], _ => true
  | _ :: _, [] => false
  | a :: as, b :: bs => if a < b then true else if a = b then lexLe as bs else false

/-- Python `s <= t` on strings. -/
def strLe (a b : String) : Bool := lexLe a.data b.data

/-- One value of the classifier's `masked` dict: the Python dict
`{'name': ..., 'reads': ...}`. -/
structure Category where
  name : String
  reads : List String
deriving DecidableEq

/-- Iterating a category's Python dict yields its keys, `'name'` and
`'reads'` — this is what `set.update(masked[filt])` iterates over. -/
def catDictKeys (_ : Category) : List String := ["name", "reads"]

/-- The fallback `filters = filters or masked.keys()`: `None` or an empty list falls back
to all keys of `masked`, in dict order. -/
def effFilters (filters : Option (List Nat)) (masked : List (Nat × Category)) : List Nat :=
  match filters with
  | none => masked.map Prod.fst
  | some l => if l.isEmpty then masked.map Prod.fst else l

/-- The `masked_reads` accumulation loop: for each chosen filter id,
`masked_reads.update(masked[filt])` — which iterates the keys of the category
dict.  A missing id is Python's fatal `KeyError`, modelled as `none`. -/
def maskedUnion : List Nat → List (Nat × Category) → Option (List String)
  | [], _ => some []
  | f :: fs, masked =>
    match masked.lookup f with
    | none => none
    | some c => (maskedUnion fs masked).map (fun rest => catDictKeys c ++ rest)

/-- The Selector `apply_filter(fnam, outfile, masked, filters)`: returns the written lines
(in order), or `none` if the run raises. -/
def apply_filter (lines : List String) (masked : List (Nat × Category))
    (filters : Option (List Nat)) : Option (List String) :=
  (maskedUnion (effFilters filters masked) masked).map
    (fun mr => lines.filter (fun line => decide (readId line ∉ mr)))

/-- The read-id set of category `c` in a `masked` dict (`[]` if absent). -/
def catReads (masked : List (Nat × Category)) (c : Nat) : List String :=
  match masked.lookup c with
  | some cat => cat.reads
  | none => []

/-- One parsed line of the read-pair file:
`read, cr1, ps1, sd1, _, rs1, re1, cr2, ps2, sd2, _, rs2, re2 = line.split()`
followed by `int()` conversion of the eight numeric fields.  The raw position
strings are kept because the duplicate key concatenates them unparsed. -/
structure Row where
  read : String
  cr1 : String
  ps1s : String
  sd1 : Int
  rs1 : Int
  re1 : Int
  cr2 : String
  ps2s : String
  sd2 : Int
  rs2 : Int
  re2 : Int
  ps1 : Int
  ps2 : Int
deriving DecidableEq

/-- Parse one line: exactly 13 whitespace-separated fields (tuple unpacking
raises on any other count), with the eight numeric fields integer-valued. -/
def parseLine (line : String) : Option Row :=
  match pyFields line with
  | [read, cr1, ps1, sd1, _, rs1, re1, cr2, ps2, sd2, _, rs2, re2] =>
    match pyToInt ps1, pyToInt ps2, pyToInt sd1, pyToInt sd2,
          pyToInt re1, pyToInt rs1, pyToInt re2, pyToInt rs2 with
    | some ps1i, some ps2i, some sd1i, some sd2i,
      some re1i, some rs1i, some re2i, some rs2i =>
      some ⟨read, cr1, ps1, sd1i, rs1i, re1i, cr2, ps2, sd2i, rs2i, re2i, ps1i, ps2i⟩
    | _, _, _, _, _, _, _, _ => none
  | _ => none

/-- Parse the whole file; any bad line aborts the run. -/
def parseFile : List String → Option (List Row)
  | [] => some []
  | l :: ls =>
    match parseLine l with
    | none => none
    | some r =>
      match parseFile ls with
      | none => none
      | some rs => some (r :: rs)

/-- Increment the count of key `k` in an association table. -/
def bump : List ((String × Int) × Nat) → (String × Int) → List ((String × Int) × Nat)
  | [], k => [(k, 1)]
  | (k', n) :: rest, k =>
    if k' = k then (k', n + 1) :: rest else (k', n) :: bump rest k

/-- Modelled from the spec: `count_re_fragments` (from
`pytadbit.mapping.restriction_enzymes`) is not under `src/`.  Per the spec's
collaborator contract (§6) and data model (§3) it returns a mapping from
`(chromosome, fragment_start)` to the number of read ends mapping to that
fragment, built in one pass over the file: each read pair contributes its two
ends. -/
def count_re_fragments (rows : List Row) : List ((String × Int) × Nat) :=
  rows.foldl (fun fc r => bump (bump fc (r.cr1, r.rs1)) (r.cr2, r.rs2)) []

/-- Python `int()` on a float: truncation toward zero, on exact rationals. -/
def pyInt (q : ℚ) : ℤ := if q < 0 then -⌊-q⌋ else ⌊q⌋

/-- The cut index `int((1 - over_represented) * num_frags + 0.5)`. -/
def cutIndex (p : ℚ) (n : ℕ) : ℤ := pyInt ((1 - p) * (n : ℚ) + 1 / 2)

/-- Python list indexing: negative indices wrap once; out of range is a fatal
`IndexError`, modelled as `none`. -/
def pyGet (l : List ℕ) (i : ℤ) : Option ℕ :=
  if 0 ≤ i ∧ i < (l.length : ℤ) then l[i.toNat]?
  else if 0 ≤ i + (l.length : ℤ) ∧ i < 0 then l[(i + (l.length : ℤ)).toNat]?
  else none

/-- The list `sorted([frag_count[crm] for crm in frag_count])`: the occurrence counts
in ascending order. -/
def sortedCounts (fc : List ((String × Int) × Nat)) : List ℕ :=
  (fc.map Prod.snd).insertionSort (· ≤ ·)

/-- The cutoff `sorted(...)[int((1 - over_represented) * num_frags + 0.5)]`. -/
def threshold (p : ℚ) (fc : List ((String × Int) × Nat)) : Option ℕ :=
  pyGet (sortedCounts fc) (cutIndex p fc.length)

/-- Association-list lookup with decidable key equality (`uniq_check[key]`). -/
def alookup : List ((String × String) × String) → (String × String) → Option String
  | [], _ => none
  | (k', v) :: rest, k => if k' = k then some v else alookup rest k

/-- The loop state: `uniq_check`, and the nine read-id sets of the `masked`
dict as a map from category id to set. -/
structure FState where
  uc : List ((String × String) × String)
  sets : Nat → List String

def emptyF : FState := ⟨[], fun _ => []⟩

/-- Python `set.add`: insert only if absent. -/
def setAdd (s : List String) (x : String) : List String :=
  if x ∈ s then s else x :: s

/-- The key `tuple(sorted((cr1 + ps1, cr2 + ps2)))` — the unordered pair of
raw chromosome+position string concatenations, in lexicographic order. -/
def dupKey (r : Row) : String × String :=
  let a := r.cr1 ++ r.ps1s
  let b := r.cr2 ++ r.ps2s
  if strLe a b then (a, b) else (b, a)

/-- The duplicate detector: first occurrence of a key is recorded in
`uniq_check`; any later occurrence flags the current read and, if not already
flagged, the first-seen read as category 5. -/
def dupStep (st : FState) (r : Row) : FState :=
  match alookup st.uc (dupKey r) with
  | none => { st with uc := (dupKey r, r.read) :: st.uc }
  | some first =>
    let s5a := setAdd (st.sets 5) r.read
    let s5b := if first ∈ s5a then s5a else first :: s5a
    { st with sets := fun c => if c = 5 then s5b else st.sets c }

/-- A Python `bool` used as an `int` (`True == 1`, `False == 0`). -/
def pyB (b : Bool) : Int := if b then 1 else 0

/-- The geometry rule chain (the `if cr1 != cr2: continue` guard and the
`if`/`elif` cascade), as the category the read is added to, if any.
Note `ps2 > ps1 != sd2` is Python's chained comparison:
`(ps2 > ps1) and (ps1 != sd2)`. -/
def classifyGeom (mml rep minf maxf : Int) (fc : List ((String × Int) × Nat))
    (cut : Nat) (r : Row) : Option Nat :=
  if r.cr1 ≠ r.cr2 then none
  else if r.re1 = r.re2 then
    if r.sd1 ≠ r.sd2 then
      if pyB (r.ps2 > r.ps1) = r.sd2 then some 1 else some 2
    else some 4
  else if |r.ps1 - r.ps2| < mml ∧ r.ps1 ≠ r.ps2 ∧ (r.ps2 > r.ps1 ∧ r.ps1 ≠ r.sd2) then
    some 3
  else if |r.re1 - r.ps1| < rep ∨ |r.rs1 - r.ps1| < rep ∨
          |r.re2 - r.ps2| < rep ∨ |r.rs2 - r.ps2| < rep then
    some 6
  else if r.re1 - r.rs1 < minf ∨ r.re2 - r.rs2 < minf then some 7
  else if r.re1 - r.rs1 > maxf ∨ r.re2 - r.rs2 > maxf then some 8
  else if (match fc.lookup (r.cr1, r.rs1) with | some n => n | none => 0) > cut ∨
          (match fc.lookup (r.cr2, r.rs2) with | some n => n | none => 0) > cut then
    some 9
  else none

/-- The update `masked[c]['reads'].add(read)`: add `read` to the set of category `c`. -/
def addRead (st : FState) (c : Nat) (read : String) : FState :=
  { st with sets := fun d => if d = c then setAdd (st.sets c) read else st.sets d }

/-- Add `read` to the set chosen by the geometry chain, if any. -/
def geomStep (o : Option Nat) (read : String) (st : FState) : FState :=
  match o with
  | some c => addRead st c read
  | none => st

/-- The main loop of `filter_reads`: per line the duplicate check, then the
geometry chain. -/
def runLoop (mml rep minf maxf : Int) (fc : List ((String × Int) × Nat))
    (cut : Nat) : List Row → FState → FState
  | [], st => st
  | r :: rs, st =>
    runLoop mml rep minf maxf fc cut rs
      (geomStep (classifyGeom mml rep minf maxf fc cut r) r.read (dupStep st r))

/-- The returned `masked` dict, keyed 1..9 with the names from the source. -/
def toMasked (st : FState) : List (Nat × Category) :=
  [(1, ⟨"self-circle", st.sets 1⟩),
   (2, ⟨"dangling-end", st.sets 2⟩),
   (3, ⟨"extra dangling-end", st.sets 3⟩),
   (4, ⟨"error", st.sets 4⟩),
   (5, ⟨"duplicated", st.sets 5⟩),
   (6, ⟨"too close from RE", st.sets 6⟩),
   (7, ⟨"too short", st.sets 7⟩),
   (8, ⟨"too large", st.sets 8⟩),
   (9, ⟨"over-represented", st.sets 9⟩)]

/-- The Classifier `filter_reads(fnam, max_molecule_length, over_represented, max_frag_size,
min_frag_size, re_proximity)`: parse failure, or an out-of-range cut index,
aborts the run (`none`). -/
def filter_reads (lines : List String) (max_molecule_length : Int)
    (over_represented : ℚ) (max_frag_size min_frag_size re_proximity : Int) :
    Option (List (Nat × Category)) :=
  match parseFile lines with
  | none => none
  | some rows =>
    let fc := count_re_fragments rows
    match threshold over_represented fc with
    | none => none
    | some cut =>
      some (toMasked (runLoop max_molecule_length re_proximity min_frag_size
        max_frag_size fc cut rows emptyF))

/-- A classifier-shaped `masked` dict with read `r1` flagged in category 1. -/
def M9 : List (Nat × Category) :=
  toMasked ⟨[], fun c => if c = 1 then ["r1"] else []⟩

/-- The eight numeric fields of a 13-field line all parse as integers. -/
def intFieldsOk : List String → Bool
  | [_, _, ps1, sd1, _, rs1, re1, _, ps2, sd2, _, rs2, re2] =>
    (pyToInt ps1).isSome && (pyToInt sd1).isSome &&
    (pyToInt rs1).isSome && (pyToInt re1).isSome &&
    (pyToInt ps2).isSome && (pyToInt sd2).isSome &&
    (pyToInt rs2).isSome && (pyToInt re2).isSome
  | _ => false

/-- A line with 14 whitespace-separated fields. -/
def badLine : String := "r A 1 0 x 2 3 B 4 1 x 5 6 extra"

/-- A well-formed 13-field line. -/
def goodLine : String := "r1 A 120 0 x 100 400 A 380 1 x 100 400"

/-- Table with counts `[2, 1, 4, 3]` for C5's instantiation. -/
def fcW5 : List ((String × Int) × Nat) :=
  [(("A", 1), 2), (("B", 1), 1), (("C", 1), 4), (("D", 1), 3)]

/-- Two-fragment table for C9's instantiation. -/
def fcW9 : List ((String × Int) × Nat) := [(("A", 1), 3), (("B", 2), 4)]

/-- The claim's first scenario: one fragment, `pos1 = 120, strand1 = 0`,
`pos2 = 380, strand2 = 1`. -/
def rowSC : Row := ⟨"r", "A", "120", 0, 100, 400, "A", "380", 1, 100, 400, 120, 380⟩

/-- The claim's second scenario: one fragment, `pos1 = 120, strand1 = 1`,
`pos2 = 380, strand2 = 0`. -/
def rowDE : Row := ⟨"r", "A", "120", 1, 100, 400, "A", "380", 0, 100, 400, 120, 380⟩

/-- An outward-facing close cross-fragment pair: `pos1 = 100, pos2 = 300,
strand2 = 1`, fragment ends 200 and 700. -/
def rowOut : Row := ⟨"r", "A", "100", 0, 50, 200, "A", "300", 1, 600, 700, 100, 300⟩

/-- An inward-facing close cross-fragment pair with `pos2 < pos1`:
`pos1 = 300, pos2 = 100, strand2 = 1`. -/
def rowIn : Row := ⟨"r", "A", "300", 0, 0, 1000, "A", "100", 1, 1200, 2000, 300, 100⟩

def geomCats : List Nat := [1, 2, 3, 4, 6, 7, 8, 9]

/-- Every read id lies in at most one of the geometry-based categories
`{1, 2, 3, 4, 6, 7, 8, 9}`. -/
def GeomMutEx (masked : List (Nat × Category)) : Prop :=
  ∀ x c c', c ∈ geomCats → c' ∈ geomCats →
    x ∈ catReads masked c → x ∈ catReads masked c' → c = c'

/-- One-line file landing its read in category 1. -/
def L3 : List String := ["r1 A 120 0 x 100 400 A 380 1 x 100 400"]

/-- Its parsed form. -/
def R3 : List Row := [⟨"r1", "A", "120", 0, 100, 400, "A", "380", 1, 100, 400, 120, 380⟩]

/-- The classification output of `L3` at `over_represented = 3/4`. -/
def M3 : List (Nat × Category) :=
  toMasked ⟨[(("A120", "A380"), "r1")], fun c => if c = 1 then ["r1"] else []⟩

/-- The rows of `pre` whose duplicate key is `k`. -/
def keyFilter (k : String × String) (pre : List Row) : List Row :=
  pre.filter (fun row => decide (dupKey row = k))

/-- The first row of `pre` whose duplicate key is `k`. -/
def keyFind (k : String × String) (pre : List Row) : Option Row :=
  pre.find? (fun row => decide (dupKey row = k))

/-- Invariant of the duplicate detector after processing the prefix `pre`:
`uniq_check` maps each key to the read of its first occurrence, and every
key occurring at least twice has all its reads flagged in category 5. -/
def DupInv (pre : List Row) (st : FState) : Prop :=
  (∀ k, alookup st.uc k = (keyFind k pre).map Row.read) ∧
  (∀ k, 2 ≤ (keyFilter k pre).length →
    ∀ row ∈ pre, dupKey row = k → row.read ∈ st.sets 5)

/-- Two-line file with identical coordinates and distinct read ids. -/
def L4 : List String :=
  ["r1 A 100 0 x 50 400 A 300 1 x 50 400",
   "r2 A 100 0 x 50 400 A 300 1 x 50 400"]

/-- Its parsed form. -/
def R4 : List Row :=
  [⟨"r1", "A", "100", 0, 50, 400, "A", "300", 1, 50, 400, 100, 300⟩,
   ⟨"r2", "A", "100", 0, 50, 400, "A", "300", 1, 50, 400, 100, 300⟩]

/-- The classification output of `L4` at `over_represented = 3/4`. -/
def M4 : List (Nat × Category) :=
  toMasked ⟨[(("A100", "A300"), "r1")],
    fun c => if c = 1 then ["r2", "r1"] else if c = 5 then ["r1", "r2"] else []⟩

/-! ## Theorems -/

theorem lookup_isSome_of_mem_keys {masked : List (Nat × Category)} {a : Nat}
    (h : a ∈ masked.map Prod.fst) : (masked.lookup a).isSome := by
  induction masked with
  | nil => simp at h
  | cons e rest ih =>
    obtain ⟨k, c⟩ := e
    simp only [List.map_cons, List.mem_cons] at h
    by_cases hk : a = k
    · subst hk; simp [List.lookup]
    · rcases h with h | h
      · exact absurd h hk
      · have hb : (a == k) = false := beq_eq_false_iff_ne.mpr hk
        simpa [List.lookup, hb] using ih h

theorem maskedUnion_isSome {masked : List (Nat × Category)} {fs : List Nat}
    (h : ∀ f ∈ fs, (masked.lookup f).isSome) :
    ∃ u, maskedUnion fs masked = some u := by
  induction fs with
  | nil => exact ⟨[], rfl⟩
  | cons f fs ih =>
    have hf := h f (by simp)
    obtain ⟨c, hc⟩ := Option.isSome_iff_exists.mp hf
    obtain ⟨u, hu⟩ := ih (fun g hg => h g (by simp [hg]))
    exact ⟨catDictKeys c ++ u, by simp [maskedUnion, hc, hu]⟩

theorem mem_of_maskedUnion {masked : List (Nat × Category)} {fs : List Nat}
    {u : List String} (h : maskedUnion fs masked = some u) {x : String}
    (hx : x ∈ u) : x = "name" ∨ x = "reads" := by
  induction fs generalizing u with
  | nil =>
    simp only [maskedUnion, Option.some.injEq] at h
    subst h; simp at hx
  | cons f fs ih =>
    simp only [maskedUnion] at h
    cases hc : masked.lookup f with
    | none => rw [hc] at h; simp at h
    | some c =>
      rw [hc] at h
      cases hr : maskedUnion fs masked with
      | none => rw [hr] at h; simp at h
      | some rest =>
        rw [hr] at h
        simp only [Option.map_some', Option.some.injEq] at h
        subst h
        rcases List.mem_append.mp hx with hx | hx
        · simpa [catDictKeys] using hx
        · exact ih hr hx

theorem maskedUnion_cons_mem {masked : List (Nat × Category)} {f : Nat}
    {fs : List Nat} {u : List String} (h : maskedUnion (f :: fs) masked = some u) :
    "name" ∈ u ∧ "reads" ∈ u := by
  simp only [maskedUnion] at h
  cases hc : masked.lookup f with
  | none => rw [hc] at h; simp at h
  | some c =>
    rw [hc] at h
    cases hr : maskedUnion fs masked with
    | none => rw [hr] at h; simp at h
    | some rest =>
      rw [hr] at h
      simp only [Option.map_some', Option.some.injEq] at h
      subst h
      constructor <;> simp [catDictKeys]

theorem effFilters_eq_nil {masked : List (Nat × Category)}
    {filters : Option (List Nat)} (h : effFilters filters masked = []) :
    masked.map Prod.fst = [] := by
  cases filters with
  | none => simpa [effFilters] using h
  | some l =>
    by_cases he : l.isEmpty
    · simpa [effFilters, he] using h
    · rw [effFilters, if_neg he] at h
      subst h; simp at he

/-- C1 (code bug): `apply_filter` does `masked_reads.update(masked[filt])`,
which iterates the keys `'name'` and `'reads'` of the category dict instead
of its read-id set.  At this input, read `r1` is flagged in the chosen
category 1, yet its line is written to the output unchanged — the Selector
does not remove the lines whose read id lies in the union of the chosen
categories' read-id sets. -/
theorem apply_filter_ignores_read_sets :
    apply_filter ["r1\tA\t100"] M9 (some [1]) = some ["r1\tA\t100"] ∧
    "r1" ∈ catReads M9 1 := by
  constructor
  · decide
  · decide

/-- C2 (confirmed): re-running the Selector on its own output with an empty
list of additional categories returns that output unchanged.  (In the code
this holds because the masked-read union of any successful run is contained
in the fixed key set `{'name', 'reads'}` that every run removes.) -/
theorem apply_filter_idem (lines out : List String)
    (masked : List (Nat × Category)) (filters : Option (List Nat))
    (h : apply_filter lines masked filters = some out) :
    apply_filter out masked (some []) = some out := by
  unfold apply_filter at h
  cases hm : maskedUnion (effFilters filters masked) masked with
  | none => rw [hm] at h; simp at h
  | some u =>
    rw [hm] at h
    simp only [Option.map_some', Option.some.injEq] at h
    have hkeys : effFilters (some []) masked = masked.map Prod.fst := by
      simp [effFilters]
    obtain ⟨u2, hu2⟩ :=
      @maskedUnion_isSome masked (masked.map Prod.fst)
        (fun f hf => lookup_isSome_of_mem_keys hf)
    unfold apply_filter
    rw [hkeys, hu2]
    simp only [Option.map_some', Option.some.injEq]
    apply List.filter_eq_self.mpr
    intro a ha
    simp only [decide_eq_true_eq]
    intro hin
    have hnr := mem_of_maskedUnion hu2 hin
    cases hE : effFilters filters masked with
    | nil =>
      have : masked.map Prod.fst = [] := effFilters_eq_nil hE
      rw [this] at hu2
      simp only [maskedUnion, Option.some.injEq] at hu2
      subst hu2; simp at hin
    | cons f fs =>
      rw [hE] at hm
      have hu := maskedUnion_cons_mem hm
      have haf : a ∈ lines ∧ readId a ∉ u := by
        rw [← h] at ha
        simpa using List.mem_filter.mp ha
      have hnotin : readId a ∉ u := haf.2
      rcases hnr with hx | hx <;> rw [hx] at hnotin
      · exact hnotin hu.1
      · exact hnotin hu.2

/-- Witness for C2 at a concrete file and masked dict: the first run drops
the line whose leading field is `name`, and a second run with an empty
filter list leaves the output unchanged. -/
theorem apply_filter_idem_w :
    apply_filter ["x\ta"] M9 (some []) = some ["x\ta"] :=
  apply_filter_idem ["x\ta", "name\tb"] ["x\ta"] M9 (some [1]) (by decide)

/-- C10 counterexample: with an explicitly empty filter list, the read `r1`
flagged in category 1 (hence in the union of all nine read-id sets) still has
its line written to the output, so the union of the nine read-id sets is not
what is removed. -/
theorem empty_filters_keeps_flagged_read :
    apply_filter ["r1\tA\t100"] M9 (some []) = some ["r1\tA\t100"] ∧
    "r1" ∈ catReads M9 1 := by
  constructor
  · decide
  · decide

/-- C10 (amended): an explicitly empty list of category ids behaves
identically to omitting the argument — both fall back to `masked.keys()`,
removing the same set of lines. -/
theorem empty_filters_defaults (lines : List String)
    (masked : List (Nat × Category)) :
    apply_filter lines masked (some []) = apply_filter lines masked none := by
  simp [apply_filter, effFilters]

/-- C10's equality evaluated at a concrete input. -/
theorem empty_filters_defaults_w :
    apply_filter ["r1\tA\t100"] M9 (some []) = apply_filter ["r1\tA\t100"] M9 none :=
  empty_filters_defaults ["r1\tA\t100"] M9

theorem parseFile_none {lines : List String} {line : String}
    (hm : line ∈ lines) (h : parseLine line = none) : parseFile lines = none := by
  induction lines with
  | nil => simp at hm
  | cons l ls ih =>
    rcases List.mem_cons.mp hm with rfl | hm'
    · simp [parseFile, h]
    · cases hl : parseLine l
      · simp [parseFile, hl]
      · simp [parseFile, hl, ih hm']

/-- C8 counterexample: this line has 14 whitespace-separated fields — hence
at least 13 — yet the classification pass does not parse it: the 13-name
tuple unpacking fails and the whole run aborts. -/
theorem fourteen_fields_parse_fails :
    (pyFields badLine).length = 14 ∧ parseLine badLine = none ∧
    filter_reads [badLine] 500 (1/2) 100000 100 5 = none := by
  refine ⟨by decide, by decide, ?_⟩
  have h : parseFile [badLine] = none :=
    @parseFile_none [badLine] badLine (by simp) (by decide)
  unfold filter_reads
  rw [h]

/-- C8 (amended): the classification pass parses exactly the lines with
exactly 13 whitespace-separated fields whose eight numeric fields are
integer-valued; a line that does not split into 13 such fields is a fatal
parse failure that aborts the run with no partial classification. -/
theorem parse_requires_exactly_13 :
    (∀ line : String, (parseLine line).isSome → (pyFields line).length = 13) ∧
    (∀ line : String, intFieldsOk (pyFields line) = true → (parseLine line).isSome) ∧
    (∀ (lines : List String) (mml maxf minf rep : Int) (p : ℚ) (line : String),
      line ∈ lines → parseLine line = none →
      filter_reads lines mml p maxf minf rep = none) := by
  refine ⟨?_, ?_, ?_⟩
  · intro line h
    unfold parseLine at h
    split at h
    · rename_i heq
      rw [heq]
      rfl
    · simp at h
  · intro line h
    unfold intFieldsOk at h
    split at h
    · rename_i ps1 sd1 rs1 re1 ps2 sd2 rs2 re2 heq
      simp only [Bool.and_eq_true] at h
      obtain ⟨⟨⟨⟨⟨⟨⟨h1, h2⟩, h3⟩, h4⟩, h5⟩, h6⟩, h7⟩, h8⟩ := h
      obtain ⟨v1, hv1⟩ := Option.isSome_iff_exists.mp h1
      obtain ⟨v2, hv2⟩ := Option.isSome_iff_exists.mp h2
      obtain ⟨v3, hv3⟩ := Option.isSome_iff_exists.mp h3
      obtain ⟨v4, hv4⟩ := Option.isSome_iff_exists.mp h4
      obtain ⟨v5, hv5⟩ := Option.isSome_iff_exists.mp h5
      obtain ⟨v6, hv6⟩ := Option.isSome_iff_exists.mp h6
      obtain ⟨v7, hv7⟩ := Option.isSome_iff_exists.mp h7
      obtain ⟨v8, hv8⟩ := Option.isSome_iff_exists.mp h8
      unfold parseLine
      rw [heq]
      simp [hv1, hv2, hv3, hv4, hv5, hv6, hv7, hv8]
    · simp at h
  · intro lines mml maxf minf rep p line hm h
    have hp : parseFile lines = none := parseFile_none hm h
    unfold filter_reads
    rw [hp]

/-- C8's amended statement at concrete inputs: the good 13-field line
parses, and a file containing the 14-field line aborts. -/
theorem parse_requires_exactly_13_w :
    (parseLine goodLine).isSome ∧
    filter_reads [badLine] 500 (1/2) 100000 100 5 = none :=
  ⟨parse_requires_exactly_13.2.1 goodLine (by decide),
   parse_requires_exactly_13.2.2 [badLine] 500 100000 100 5 (1/2) badLine
     (by simp) (by decide)⟩

theorem length_sortedCounts (fc : List ((String × Int) × Nat)) :
    (sortedCounts fc).length = fc.length := by
  unfold sortedCounts
  rw [(List.perm_insertionSort _ _).length_eq, List.length_map]

theorem sortedCounts_sorted (fc : List ((String × Int) × Nat)) :
    (sortedCounts fc).Sorted (· ≤ ·) :=
  List.sorted_insertionSort _ _

theorem cutIndex_eq_floor {p : ℚ} {n : ℕ} (hp : p ≤ 1) :
    cutIndex p n = ⌊(1 - p) * (n : ℚ) + 1 / 2⌋ := by
  unfold cutIndex pyInt
  rw [if_neg]
  push_neg
  have hn : (0 : ℚ) ≤ (n : ℚ) := Nat.cast_nonneg n
  have h1 : (0 : ℚ) ≤ (1 - p) * (n : ℚ) := mul_nonneg (by linarith) hn
  linarith

theorem cutIndex_nonneg {p : ℚ} {n : ℕ} (hp : p ≤ 1) : 0 ≤ cutIndex p n := by
  rw [cutIndex_eq_floor hp]
  apply Int.le_floor.mpr
  have hn : (0 : ℚ) ≤ (n : ℚ) := Nat.cast_nonneg n
  have h1 : (0 : ℚ) ≤ (1 - p) * (n : ℚ) := mul_nonneg (by linarith) hn
  push_cast
  linarith

theorem cutIndex_antitone {p1 p2 : ℚ} {n : ℕ} (h12 : p1 ≤ p2) (h1 : p2 ≤ 1) :
    cutIndex p2 n ≤ cutIndex p1 n := by
  rw [cutIndex_eq_floor h1, cutIndex_eq_floor (le_trans h12 h1)]
  apply Int.floor_le_floor
  have hn : (0 : ℚ) ≤ (n : ℚ) := Nat.cast_nonneg n
  have hmul : (1 - p2) * (n : ℚ) ≤ (1 - p1) * (n : ℚ) :=
    mul_le_mul_of_nonneg_right (by linarith) hn
  linarith

theorem pyGet_in_range {l : List ℕ} {i : ℤ} (h0 : 0 ≤ i) (hl : i < (l.length : ℤ)) :
    pyGet l i = some (l.get ⟨i.toNat, by omega⟩) := by
  unfold pyGet
  rw [if_pos ⟨h0, hl⟩]
  rw [List.getElem?_eq_getElem (by omega)]
  simp [List.get_eq_getElem]

/-- C5 (confirmed): with a fixed fragment-occurrence table and two fractions
`p1 ≤ p2` (`0 ≤ p1`, `p2 < 1`) whose cut indices are both valid indices into
the ascending-sorted count list, both threshold computations succeed and the
cut computed with `p2` is at most the cut computed with `p1`. -/
theorem threshold_monotone (fc : List ((String × Int) × Nat)) (p1 p2 : ℚ)
    (h0 : 0 ≤ p1) (h12 : p1 ≤ p2) (h1 : p2 < 1)
    (hv1 : cutIndex p1 fc.length < (fc.length : ℤ))
    (hv2 : cutIndex p2 fc.length < (fc.length : ℤ)) :
    (threshold p1 fc).isSome ∧ (threshold p2 fc).isSome ∧
    (threshold p2 fc).getD 0 ≤ (threshold p1 fc).getD 0 := by
  have hlen : ((sortedCounts fc).length : ℤ) = (fc.length : ℤ) := by
    rw [length_sortedCounts]
  have hi1 : 0 ≤ cutIndex p1 fc.length := cutIndex_nonneg (by linarith)
  have hi2 : 0 ≤ cutIndex p2 fc.length := cutIndex_nonneg (by linarith)
  have hg1 : threshold p1 fc =
      some ((sortedCounts fc).get ⟨(cutIndex p1 fc.length).toNat, by
        rw [length_sortedCounts]; omega⟩) := by
    unfold threshold
    rw [pyGet_in_range hi1 (by rw [hlen]; exact hv1)]
  have hg2 : threshold p2 fc =
      some ((sortedCounts fc).get ⟨(cutIndex p2 fc.length).toNat, by
        rw [length_sortedCounts]; omega⟩) := by
    unfold threshold
    rw [pyGet_in_range hi2 (by rw [hlen]; exact hv2)]
  refine ⟨by rw [hg1]; rfl, by rw [hg2]; rfl, ?_⟩
  rw [hg1, hg2]
  simp only [Option.getD_some]
  have hmono : cutIndex p2 fc.length ≤ cutIndex p1 fc.length :=
    cutIndex_antitone h12 (le_of_lt h1)
  rcases lt_or_eq_of_le hmono with hlt | heq
  · exact List.pairwise_iff_get.mp (sortedCounts_sorted fc) _ _ (Fin.mk_lt_mk.mpr (by omega))
  · have : (cutIndex p2 fc.length).toNat = (cutIndex p1 fc.length).toNat := by omega
    simp only [this]
    exact le_refl _

/-- C5 at `p1 = 1/4`, `p2 = 1/2` on four fragments: both cuts defined and
the larger fraction gives the smaller (or equal) cut. -/
theorem threshold_monotone_w :
    (threshold (1/4) fcW5).isSome ∧ (threshold (1/2) fcW5).isSome ∧
    (threshold (1/2) fcW5).getD 0 ≤ (threshold (1/4) fcW5).getD 0 :=
  threshold_monotone fcW5 (1/4) (1/2) (by norm_num) (by norm_num) (by norm_num)
    (by
      have : cutIndex (1/4) (4 : ℕ) = 3 := by
        rw [cutIndex_eq_floor (by norm_num)]
        rw [Int.floor_eq_iff]
        push_cast
        norm_num
      rw [show fcW5.length = 4 from rfl, this]
      norm_num)
    (by
      have : cutIndex (1/2) (4 : ℕ) = 2 := by
        rw [cutIndex_eq_floor (by norm_num)]
        rw [Int.floor_eq_iff]
        push_cast
        norm_num
      rw [show fcW5.length = 4 from rfl, this]
      norm_num)

/-- C9 counterexample: a table with a single fragment and `p = 0` (so
`p * n ≤ 0.5`): the cut index equals `n = 1`, which is out of range, and the
threshold computation fails instead of producing a defined integer cut. -/
theorem cut_index_at_n_fails :
    threshold 0 [(("A", 1), 5)] = none := by
  have h : cutIndex 0 1 = 1 := by
    rw [cutIndex_eq_floor (by norm_num)]
    rw [Int.floor_eq_iff]
    push_cast
    norm_num
  unfold threshold
  show pyGet (sortedCounts [(("A", 1), 5)]) (cutIndex 0 1) = none
  rw [h]
  decide

/-- C9 (amended): for every non-empty table with `n` fragments and every
fraction `p ≥ 0` with `p * n ≤ 1/2` (in particular `p = 0`), the cut index
equals `n` — one past the end of the sorted count list — and the threshold
computation fails on the out-of-range index rather than being guarded. -/
theorem cut_boundary_unguarded (fc : List ((String × Int) × Nat)) (p : ℚ)
    (hne : fc ≠ []) (h0 : 0 ≤ p) (hpn : p * (fc.length : ℚ) ≤ 1 / 2) :
    cutIndex p fc.length = (fc.length : ℤ) ∧ threshold p fc = none := by
  have hn1 : 1 ≤ fc.length := List.length_pos.mpr hne
  have hnq : (1 : ℚ) ≤ (fc.length : ℚ) := by exact_mod_cast hn1
  have hpe : p ≤ 1 := by
    by_contra hgt
    push_neg at hgt
    have : (1 : ℚ) * 1 ≤ p * (fc.length : ℚ) :=
      mul_le_mul (le_of_lt hgt) hnq (by norm_num) (by linarith)
    linarith
  have hidx : cutIndex p fc.length = (fc.length : ℤ) := by
    rw [cutIndex_eq_floor hpe]
    rw [Int.floor_eq_iff]
    push_cast
    constructor
    · have h2 : 0 ≤ p * (fc.length : ℚ) := mul_nonneg h0 (by linarith)
      nlinarith
    · nlinarith
  refine ⟨hidx, ?_⟩
  unfold threshold
  rw [hidx, pyGet]
  rw [if_neg (by rw [length_sortedCounts]; omega)]
  rw [if_neg]
  rw [length_sortedCounts]
  push_neg
  intro
  omega

/-- C9's amended statement at `p = 1/4`, two fragments
(`p * n = 1/2 ≤ 1/2`): cut index `2 = n`, computation fails. -/
theorem cut_boundary_unguarded_w :
    cutIndex (1/4) fcW9.length = (fcW9.length : ℤ) ∧ threshold (1/4) fcW9 = none :=
  cut_boundary_unguarded fcW9 (1/4) (by decide) (by norm_num)
    (by rw [show fcW9.length = 2 from rfl]; push_cast; norm_num)

/-- C6 (confirmed): for a pair on one chromosome with equal fragment ends,
the chain assigns category 1 exactly on different strands with
`(pos2 > pos1) == strand2` true (Python bool-int equality), category 2
exactly on different strands with that test false, and category 4 exactly on
equal strands. -/
theorem same_fragment_rule (mml rep minf maxf : Int)
    (fc : List ((String × Int) × Nat)) (cut : Nat) (r : Row)
    (hc : r.cr1 = r.cr2) (hf : r.re1 = r.re2) :
    (classifyGeom mml rep minf maxf fc cut r = some 1 ↔
      r.sd1 ≠ r.sd2 ∧ pyB (r.ps2 > r.ps1) = r.sd2) ∧
    (classifyGeom mml rep minf maxf fc cut r = some 2 ↔
      r.sd1 ≠ r.sd2 ∧ pyB (r.ps2 > r.ps1) ≠ r.sd2) ∧
    (classifyGeom mml rep minf maxf fc cut r = some 4 ↔ r.sd1 = r.sd2) := by
  unfold classifyGeom
  rw [if_neg (not_ne_iff.mpr hc), if_pos hf]
  by_cases hsd : r.sd1 = r.sd2
  · rw [if_neg (not_ne_iff.mpr hsd)]
    refine ⟨by simp [hsd], by simp [hsd], by simp [hsd]⟩
  · rw [if_pos hsd]
    by_cases hb : pyB (decide (r.ps2 > r.ps1)) = r.sd2
    · rw [if_pos hb]
      exact ⟨by simp [hsd, hb], by simp [hb], by simp [hsd]⟩
    · rw [if_neg hb]
      exact ⟨by simp [hb], by simp [hsd, hb], by simp [hsd]⟩

/-- C6 at the two scenarios of the claim: category 1 (self-circle) and
category 2 (dangling-end) respectively. -/
theorem same_fragment_rule_w :
    classifyGeom 500 5 100 100000 [] 0 rowSC = some 1 ∧
    classifyGeom 500 5 100 100000 [] 0 rowDE = some 2 :=
  ⟨(same_fragment_rule 500 5 100 100000 [] 0 rowSC rfl rfl).1.mpr (by decide),
   (same_fragment_rule 500 5 100 100000 [] 0 rowDE rfl rfl).2.1.mpr (by decide)⟩

/-- C7 (code bug): the source evaluates `ps2 > ps1 != sd2` — Python's chained
comparison `(ps2 > ps1) and (ps1 != sd2)` — instead of the inward-facing test
`(pos2 > pos1) != strand2`.  `rowOut` is close and *outward*-facing
(`(pos2 > pos1) == strand2`), contradicting both the claim's condition and
the docstring ("point to the inside"), yet is flagged category 3; `rowIn` is
close and *inward*-facing but, having `pos2 < pos1`, is not flagged. -/
theorem rule3_flags_outward_pair :
    classifyGeom 500 5 100 100000 [] 0 rowOut = some 3 ∧
    pyB (rowOut.ps2 > rowOut.ps1) = rowOut.sd2 ∧
    classifyGeom 500 5 100 100000 [] 0 rowIn = none ∧
    pyB (rowIn.ps2 > rowIn.ps1) ≠ rowIn.sd2 := by
  refine ⟨by decide, by decide, by decide, by decide⟩

theorem mem_setAdd {s : List String} {x y : String} :
    x ∈ setAdd s y ↔ x = y ∨ x ∈ s := by
  unfold setAdd
  by_cases h : y ∈ s
  · rw [if_pos h]
    constructor
    · exact Or.inr
    · rintro (rfl | hx)
      · exact h
      · exact hx
  · rw [if_neg h]
    simp [List.mem_cons]

theorem uc_geomStep (o : Option Nat) (read : String) (st : FState) :
    (geomStep o read st).uc = st.uc := by
  cases o <;> rfl

theorem sets_geomStep_ne {o : Option Nat} {c : Nat} (read : String) (st : FState)
    (h : o ≠ some c) : (geomStep o read st).sets c = st.sets c := by
  cases o with
  | none => rfl
  | some k =>
    have hk : c ≠ k := fun hck => h (by rw [hck])
    simp [geomStep, addRead, hk]

theorem sets_geomStep_eq (c : Nat) (read : String) (st : FState) :
    (geomStep (some c) read st).sets c = setAdd (st.sets c) read := by
  simp [geomStep, addRead]

theorem classifyGeom_ne_five (mml rep minf maxf : Int)
    (fc : List ((String × Int) × Nat)) (cut : Nat) (r : Row) :
    classifyGeom mml rep minf maxf fc cut r ≠ some 5 := by
  unfold classifyGeom
  split_ifs <;> simp

theorem uc_dupStep (st : FState) (r : Row) :
    (dupStep st r).uc = st.uc ∨
    (dupStep st r).uc = (dupKey r, r.read) :: st.uc := by
  unfold dupStep
  cases alookup st.uc (dupKey r)
  · exact Or.inr rfl
  · exact Or.inl rfl

theorem sets_dupStep_ne {c : Nat} (st : FState) (r : Row) (h : c ≠ 5) :
    (dupStep st r).sets c = st.sets c := by
  unfold dupStep
  cases alookup st.uc (dupKey r)
  · rfl
  · simp [h]

/-- Membership in a geometry category after the loop: the initial content
plus the reads of the rows the chain sends to that category. -/
theorem runLoop_mem (mml rep minf maxf : Int) (fc : List ((String × Int) × Nat))
    (cut : Nat) (c : Nat) (hc : c ∈ geomCats) (x : String) :
    ∀ (rows : List Row) (st : FState),
    (x ∈ (runLoop mml rep minf maxf fc cut rows st).sets c ↔
      x ∈ st.sets c ∨ ∃ r ∈ rows, r.read = x ∧
        classifyGeom mml rep minf maxf fc cut r = some c) := by
  have hc5 : c ≠ 5 := by
    intro h
    rw [h] at hc
    simp [geomCats] at hc
  intro rows
  induction rows with
  | nil => intro st; simp [runLoop]
  | cons r rs ih =>
    intro st
    show x ∈ (runLoop mml rep minf maxf fc cut rs
      (geomStep (classifyGeom mml rep minf maxf fc cut r) r.read (dupStep st r))).sets c ↔ _
    rw [ih]
    have hdup : (dupStep st r).sets c = st.sets c := sets_dupStep_ne st r hc5
    by_cases ho : classifyGeom mml rep minf maxf fc cut r = some c
    · rw [ho, sets_geomStep_eq, hdup]
      rw [mem_setAdd]
      constructor
      · rintro ((rfl | hx) | ⟨r', hr', hx, hcl⟩)
        · exact Or.inr ⟨r, by simp, rfl, ho⟩
        · exact Or.inl hx
        · exact Or.inr ⟨r', by simp [hr'], hx, hcl⟩
      · rintro (hx | ⟨r', hr', hx, hcl⟩)
        · exact Or.inl (Or.inr hx)
        · rcases List.mem_cons.mp hr' with rfl | hr'
          · exact Or.inl (Or.inl hx.symm)
          · exact Or.inr ⟨r', hr', hx, hcl⟩
    · rw [sets_geomStep_ne r.read (dupStep st r) ho, hdup]
      constructor
      · rintro (hx | ⟨r', hr', hx, hcl⟩)
        · exact Or.inl hx
        · exact Or.inr ⟨r', by simp [hr'], hx, hcl⟩
      · rintro (hx | ⟨r', hr', hx, hcl⟩)
        · exact Or.inl hx
        · rcases List.mem_cons.mp hr' with rfl | hr'
          · exact absurd hcl ho
          · exact Or.inr ⟨r', hr', hx, hcl⟩

theorem catReads_toMasked_geom (st : FState) {c : Nat} (hc : c ∈ geomCats) :
    catReads (toMasked st) c = st.sets c := by
  have : c = 1 ∨ c = 2 ∨ c = 3 ∨ c = 4 ∨ c = 6 ∨ c = 7 ∨ c = 8 ∨ c = 9 := by
    simpa [geomCats] using hc
  rcases this with rfl | rfl | rfl | rfl | rfl | rfl | rfl | rfl <;> rfl

theorem catReads_toMasked_five (st : FState) :
    catReads (toMasked st) 5 = st.sets 5 := rfl

theorem nodup_map_read_inj {rows : List Row} (hnd : (rows.map Row.read).Nodup)
    {a b : Row} (ha : a ∈ rows) (hb : b ∈ rows) (hab : a.read = b.read) :
    a = b := by
  induction rows with
  | nil => simp at ha
  | cons r rs ih =>
    rw [List.map_cons, List.nodup_cons] at hnd
    rcases List.mem_cons.mp ha with rfl | ha' <;>
      rcases List.mem_cons.mp hb with rfl | hb'
    · rfl
    · exact absurd (hab ▸ List.mem_map_of_mem Row.read hb') hnd.1
    · exact absurd (hab ▸ List.mem_map_of_mem Row.read ha') hnd.1
    · exact ih hnd.2 ha' hb'

/-- C3 (confirmed): on a file whose read ids are pairwise distinct, a
successful classification run puts each read id in at most one of the
geometry-based categories `{1, 2, 3, 4, 6, 7, 8, 9}` — the `elif` chain
assigns at most one category per line, and distinct ids come from distinct
lines. -/
theorem geom_mutually_exclusive (lines : List String) (mml : Int) (p : ℚ)
    (maxf minf rep : Int) (rows : List Row) (masked : List (Nat × Category))
    (hp : parseFile lines = some rows)
    (hnd : (rows.map Row.read).Nodup)
    (h : filter_reads lines mml p maxf minf rep = some masked) :
    GeomMutEx masked := by
  unfold filter_reads at h
  rw [hp] at h
  simp only [] at h
  cases ht : threshold p (count_re_fragments rows) with
  | none => rw [ht] at h; simp at h
  | some cut =>
    rw [ht] at h
    simp only [Option.some.injEq] at h
    subst h
    intro x c c' hc hc' hm hm'
    rw [catReads_toMasked_geom _ hc] at hm
    rw [catReads_toMasked_geom _ hc'] at hm'
    rw [runLoop_mem mml rep minf maxf (count_re_fragments rows) cut c hc x rows emptyF] at hm
    rw [runLoop_mem mml rep minf maxf (count_re_fragments rows) cut c' hc' x rows emptyF] at hm'
    simp only [emptyF, List.not_mem_nil, false_or] at hm hm'
    obtain ⟨r1, hr1, hx1, hc1⟩ := hm
    obtain ⟨r2, hr2, hx2, hc2⟩ := hm'
    have heq : r1 = r2 := nodup_map_read_inj hnd hr1 hr2 (hx1.trans hx2.symm)
    rw [heq, hc2] at hc1
    exact (Option.some.injEq _ _).mp hc1.symm

/-- C3's conclusion at a concrete run. -/
theorem geom_mutually_exclusive_w : GeomMutEx M3 := by
  have hcut : cutIndex (3/4) 1 = 0 := by
    rw [cutIndex_eq_floor (by norm_num)]
    rw [Int.floor_eq_iff]
    norm_num
  have ht : threshold (3/4) (count_re_fragments R3) = some 2 := by
    have hc : count_re_fragments R3 = [(("A", 100), 2)] := by decide
    unfold threshold
    rw [hc]
    show pyGet (sortedCounts [(("A", 100), 2)]) (cutIndex (3/4) 1) = some 2
    rw [hcut]
    decide
  have h : filter_reads L3 500 (3/4) 100000 100 5 = some M3 := by
    unfold filter_reads
    rw [show parseFile L3 = some R3 from by decide]
    simp only []
    rw [ht]
    decide
  exact geom_mutually_exclusive L3 500 (3/4) 100000 100 5 R3 M3 (by decide) (by decide) h

theorem dupInv_nil : DupInv [] emptyF := by
  constructor
  · intro k; rfl
  · intro k hk
    simp [keyFilter] at hk

theorem keyFind_append (k : String × String) (pre post : List Row) :
    keyFind k (pre ++ post) = (keyFind k pre).or (keyFind k post) := by
  unfold keyFind
  exact List.find?_append

theorem keyFind_single (k : String × String) (r : Row) :
    keyFind k [r] = if dupKey r = k then some r else none := by
  unfold keyFind
  by_cases hk : dupKey r = k
  · simp [List.find?, hk]
  · simp [List.find?, hk]

theorem keyFilter_append (k : String × String) (pre post : List Row) :
    keyFilter k (pre ++ post) = keyFilter k pre ++ keyFilter k post := by
  unfold keyFilter
  exact List.filter_append _ _

theorem keyFilter_single (k : String × String) (r : Row) :
    keyFilter k [r] = if dupKey r = k then [r] else [] := by
  unfold keyFilter
  by_cases hk : dupKey r = k
  · simp [List.filter, hk]
  · simp [List.filter, hk]

theorem keyFilter_nil_of_find_none {k : String × String} {pre : List Row}
    (h : keyFind k pre = none) : keyFilter k pre = [] := by
  unfold keyFind at h
  rw [List.find?_eq_none] at h
  unfold keyFilter
  rw [List.filter_eq_nil_iff]
  intro a ha
  simpa using h a ha

theorem mem_keyFilter {k : String × String} {pre : List Row} {row : Row}
    (hrow : row ∈ pre) (hkey : dupKey row = k) : row ∈ keyFilter k pre := by
  unfold keyFilter
  exact List.mem_filter.mpr ⟨hrow, by simp [hkey]⟩

/-- If `k` occurs exactly once in `pre`, any occurrence is the one found
first. -/
theorem keyFind_eq_of_single {k : String × String} {pre : List Row} {row x : Row}
    (hlen : (keyFilter k pre).length = 1) (hfind : keyFind k pre = some x)
    (hrow : row ∈ pre) (hkey : dupKey row = k) : row = x := by
  obtain ⟨a, ha⟩ := List.length_eq_one.mp hlen
  have hx : keyFind k pre = (keyFilter k pre).head? := by
    unfold keyFind keyFilter
    exact (List.filter_head? _ _).symm
  rw [hfind, ha] at hx
  have hxa : x = a := by simpa using hx
  have hmem : row ∈ keyFilter k pre := mem_keyFilter hrow hkey
  rw [ha] at hmem
  have : row = a := by simpa using hmem
  rw [this, hxa]

/-- The duplicate detector preserves `DupInv` across one row. -/
theorem dupStep_inv {pre : List Row} {st : FState} (h : DupInv pre st) (r : Row) :
    DupInv (pre ++ [r]) (dupStep st r) := by
  obtain ⟨hA, hB⟩ := h
  unfold dupStep
  cases hl : alookup st.uc (dupKey r) with
  | none =>
    have hfind : keyFind (dupKey r) pre = none := by
      have hk := hA (dupKey r)
      rw [hl] at hk
      exact Option.map_eq_none'.mp hk.symm
    constructor
    · intro k
      show alookup ((dupKey r, r.read) :: st.uc) k = (keyFind k (pre ++ [r])).map Row.read
      rw [keyFind_append, keyFind_single]
      by_cases hk : dupKey r = k
      · subst hk
        rw [hfind]
        simp [alookup]
      · have : alookup ((dupKey r, r.read) :: st.uc) k = alookup st.uc k := by
          simp [alookup, hk]
        rw [this, hA k]
        cases hkf : keyFind k pre
        · simp [hk]
        · simp
    · intro k h2 row hrow hkey
      show row.read ∈ st.sets 5
      rw [keyFilter_append, keyFilter_single, List.length_append] at h2
      by_cases hk : dupKey r = k
      · rw [keyFilter_nil_of_find_none (hk ▸ hfind)] at h2
        rw [if_pos hk] at h2
        simp at h2
      · rw [if_neg hk] at h2
        simp only [List.length_nil, Nat.add_zero] at h2
        rcases List.mem_append.mp hrow with hrow | hrow
        · exact hB k h2 row hrow hkey
        · have : row = r := by simpa using hrow
          rw [this] at hkey
          exact absurd hkey hk
  | some first =>
    obtain ⟨row0, hrow0, hread0⟩ : ∃ row0, keyFind (dupKey r) pre = some row0 ∧
        row0.read = first := by
      have hk := hA (dupKey r)
      rw [hl] at hk
      obtain ⟨a, ha1, ha2⟩ := Option.map_eq_some'.mp hk.symm
      exact ⟨a, ha1, ha2⟩
    constructor
    · intro k
      show alookup st.uc k = (keyFind k (pre ++ [r])).map Row.read
      rw [keyFind_append, keyFind_single, hA k]
      by_cases hk : dupKey r = k
      · subst hk
        rw [hrow0]
        simp
      · cases hkf : keyFind k pre
        · simp [hk]
        · simp
    · intro k h2 row hrow hkey
      show row.read ∈ (fun c => if c = 5 then
        (if first ∈ setAdd (st.sets 5) r.read then setAdd (st.sets 5) r.read
         else first :: setAdd (st.sets 5) r.read)
        else st.sets c) 5
      simp only [if_pos rfl]
      have hsub : ∀ x, x ∈ setAdd (st.sets 5) r.read →
          x ∈ (if first ∈ setAdd (st.sets 5) r.read then setAdd (st.sets 5) r.read
               else first :: setAdd (st.sets 5) r.read) := by
        intro x hx
        split
        · exact hx
        · exact List.mem_cons_of_mem _ hx
      have hsub5 : ∀ x, x ∈ st.sets 5 →
          x ∈ (if first ∈ setAdd (st.sets 5) r.read then setAdd (st.sets 5) r.read
               else first :: setAdd (st.sets 5) r.read) := by
        intro x hx
        exact hsub x (mem_setAdd.mpr (Or.inr hx))
      have hfirstmem :
          first ∈ (if first ∈ setAdd (st.sets 5) r.read then setAdd (st.sets 5) r.read
                   else first :: setAdd (st.sets 5) r.read) := by
        split
        · assumption
        · exact List.mem_cons_self _ _
      have hrmem :
          r.read ∈ (if first ∈ setAdd (st.sets 5) r.read then setAdd (st.sets 5) r.read
                    else first :: setAdd (st.sets 5) r.read) :=
        hsub r.read (mem_setAdd.mpr (Or.inl rfl))
      rcases List.mem_append.mp hrow with hrow | hrow
      · by_cases hk : dupKey r = k
        · subst hk
          rcases Nat.lt_or_ge (keyFilter (dupKey r) pre).length 2 with hm | hm
          · have h1 : 1 ≤ (keyFilter (dupKey r) pre).length :=
              List.length_pos.mpr (List.ne_nil_of_mem (mem_keyFilter hrow hkey))
            have hone : (keyFilter (dupKey r) pre).length = 1 := by omega
            have : row = row0 := keyFind_eq_of_single hone hrow0 hrow hkey
            rw [this, hread0]
            exact hfirstmem
          · exact hsub5 row.read (hB (dupKey r) hm row hrow hkey)
        · rw [keyFilter_append, keyFilter_single, if_neg hk, List.length_append] at h2
          simp only [List.length_nil, Nat.add_zero] at h2
          exact hsub5 row.read (hB k h2 row hrow hkey)
      · have : row = r := by simpa using hrow
        rw [this]
        exact hrmem

/-- The geometry step never touches `uniq_check` or the duplicate set. -/
theorem geomStep_inv {pre : List Row} {st : FState} (h : DupInv pre st)
    {o : Option Nat} (ho : o ≠ some 5) (read : String) :
    DupInv pre (geomStep o read st) := by
  obtain ⟨hA, hB⟩ := h
  constructor
  · intro k
    rw [uc_geomStep]
    exact hA k
  · intro k h2 row hrow hkey
    rw [sets_geomStep_ne read st ho]
    exact hB k h2 row hrow hkey

/-- The whole loop preserves `DupInv`. -/
theorem runLoop_inv (mml rep minf maxf : Int) (fc : List ((String × Int) × Nat))
    (cut : Nat) :
    ∀ (rows pre : List Row) (st : FState), DupInv pre st →
    DupInv (pre ++ rows) (runLoop mml rep minf maxf fc cut rows st) := by
  intro rows
  induction rows with
  | nil =>
    intro pre st h
    simpa using h
  | cons r rs ih =>
    intro pre st h
    show DupInv (pre ++ r :: rs) (runLoop mml rep minf maxf fc cut rs
      (geomStep (classifyGeom mml rep minf maxf fc cut r) r.read (dupStep st r)))
    have h1 : DupInv (pre ++ [r])
        (geomStep (classifyGeom mml rep minf maxf fc cut r) r.read (dupStep st r)) :=
      geomStep_inv (dupStep_inv h r) (classifyGeom_ne_five mml rep minf maxf fc cut r) r.read
    have h2 := ih (pre ++ [r]) _ h1
    simpa [List.append_assoc] using h2

/-- Two distinct positions with the same key give at least two key matches. -/
theorem keyFilter_two_le_of_lt {rows : List Row} {i j : Nat} (hij : i < j)
    (hj : j < rows.length) {k : String × String}
    (hki : dupKey (rows.get ⟨i, by omega⟩) = k)
    (hkj : dupKey (rows.get ⟨j, hj⟩) = k) :
    2 ≤ (keyFilter k rows).length := by
  have hi : i < rows.length := by omega
  have hsplit : rows = rows.take j ++ rows.get ⟨j, hj⟩ :: rows.drop (j + 1) := by
    conv_lhs => rw [← List.take_append_drop j rows]
    congr 1
    rw [List.drop_eq_getElem_cons hj]
    simp [List.get_eq_getElem]
  have hmem : rows.get ⟨i, hi⟩ ∈ rows.take j := by
    have h1 : i < (rows.take j).length := by
      rw [List.length_take]
      omega
    have h2 : (rows.take j).get ⟨i, h1⟩ = rows.get ⟨i, hi⟩ := by
      simp [List.get_eq_getElem, List.getElem_take]
    rw [← h2]
    exact List.get_mem _ _ _
  have hlhs : keyFilter k rows =
      keyFilter k (rows.take j) ++ keyFilter k (rows.get ⟨j, hj⟩ :: rows.drop (j + 1)) := by
    conv_lhs => rw [hsplit]
    exact keyFilter_append _ _ _
  have h1 : 1 ≤ (keyFilter k (rows.take j)).length :=
    List.length_pos.mpr (List.ne_nil_of_mem (mem_keyFilter hmem hki))
  have h2 : 1 ≤ (keyFilter k (rows.get ⟨j, hj⟩ :: rows.drop (j + 1))).length := by
    unfold keyFilter
    rw [List.filter_cons, if_pos (by simpa using hkj)]
    simp
  rw [hlhs, List.length_append]
  omega

/-- C4 (confirmed): any two lines of the file with equal canonical duplicate
keys — the sorted unordered pair of the `chrom ++ pos` concatenations — have
both their read ids in category 5 after a successful classification run,
whatever their order in the file, their chromosomes, and the geometry
rules. -/
theorem duplicate_symmetry (lines : List String) (mml : Int) (p : ℚ)
    (maxf minf rep : Int) (rows : List Row) (masked : List (Nat × Category))
    (i j : Nat) (hp : parseFile lines = some rows)
    (h : filter_reads lines mml p maxf minf rep = some masked)
    (hi : i < rows.length) (hj : j < rows.length) (hij : i ≠ j)
    (hkey : dupKey (rows.get ⟨i, hi⟩) = dupKey (rows.get ⟨j, hj⟩)) :
    (rows.get ⟨i, hi⟩).read ∈ catReads masked 5 ∧
    (rows.get ⟨j, hj⟩).read ∈ catReads masked 5 := by
  unfold filter_reads at h
  rw [hp] at h
  simp only [] at h
  cases ht : threshold p (count_re_fragments rows) with
  | none =>
    rw [ht] at h
    simp at h
  | some cut =>
    rw [ht] at h
    simp only [Option.some.injEq] at h
    subst h
    have hinv := runLoop_inv mml rep minf maxf (count_re_fragments rows) cut
      rows [] emptyF dupInv_nil
    simp only [List.nil_append] at hinv
    set k := dupKey (rows.get ⟨j, hj⟩) with hkdef
    have h2 : 2 ≤ (keyFilter k rows).length := by
      rcases Nat.lt_or_ge i j with hlt | hge
      · exact keyFilter_two_le_of_lt hlt hj hkey rfl
      · have hlt : j < i := by omega
        exact keyFilter_two_le_of_lt hlt hi rfl hkey
    rw [catReads_toMasked_five]
    exact ⟨hinv.2 k h2 _ (List.get_mem rows _ _) hkey,
           hinv.2 k h2 _ (List.get_mem rows _ _) rfl⟩

/-- C4 at the concrete duplicated pair: both read ids flagged category 5. -/
theorem duplicate_symmetry_w :
    "r1" ∈ catReads M4 5 ∧ "r2" ∈ catReads M4 5 := by
  have hcut : cutIndex (3/4) 1 = 0 := by
    rw [cutIndex_eq_floor (by norm_num)]
    rw [Int.floor_eq_iff]
    norm_num
  have ht : threshold (3/4) (count_re_fragments R4) = some 4 := by
    have hc : count_re_fragments R4 = [(("A", 50), 4)] := by decide
    unfold threshold
    rw [hc]
    show pyGet (sortedCounts [(("A", 50), 4)]) (cutIndex (3/4) 1) = some 4
    rw [hcut]
    decide
  have h : filter_reads L4 500 (3/4) 100000 100 5 = some M4 := by
    unfold filter_reads
    rw [show parseFile L4 = some R4 from by decide]
    simp only []
    rw [ht]
    decide
  exact duplicate_symmetry L4 500 (3/4) 100000 100 5 R4 M4 0 1 (by decide) h
    (by decide) (by decide) (by decide) (by decide)

end TadbitFilter
